import Mathlib

/-!
Verification development for the AEGUD (Adaptive Entropy-Guided Uniform
Diffusion) experiment code: the entropy-guided transition machinery of
`entropy_estimator.py`, the graphs of `adaptive_uniform_graph.py`,
`enhanced_adaptive_uniform_graph.py` and `enhanced_adaptive_uniform_graph_v2.py`,
and the convergence diagnostics of `diffusion_validator.py` and
`enhanced_metrics.py`.

Tensors are embedded per batch slice: a vocabulary-indexed function
`Fin V → ℝ` stands for a row, `Fin V → Fin V → ℝ` for a V by V matrix.
The learned neural components (token embeddings, entropy estimator outputs)
enter as arbitrary real-valued parameters, exactly as the code treats them:
every property below is proved for all values those networks can produce.
-/

namespace AEGUD

open Finset

/-! ## AdaptiveTransitionMatrix (entropy_estimator.py, lines 118-192) -/

/-- Embedding-dot-product similarity matrix of `AdaptiveTransitionMatrix.forward`:
`torch.matmul(embeddings, embeddings.T) / math.sqrt(hidden_dim)` plus the
self-transition bias added on the diagonal. -/
noncomputable def similarity (V D : ℕ) (emb : Fin V → Fin D → ℝ) (selfBias : ℝ)
    (i j : Fin V) : ℝ :=
  (∑ d, emb i d * emb j d) / Real.sqrt D + (if i = j then 1 else 0) * selfBias

/-- Effective temperature of `AdaptiveTransitionMatrix.forward`: the learned
temperature, scaled by `1 + entropy_scores.mean()` when entropy scores are given. -/
def atm_temp (temperature : ℝ) (entropyMean : Option ℝ) : ℝ :=
  match entropyMean with
  | none => temperature
  | some m => temperature * (1 + m)

/-- Row-wise softmax of `AdaptiveTransitionMatrix.forward`:
`F.softmax(similarity / temp, dim=-1)`. -/
noncomputable def atm_forward (V D : ℕ) (emb : Fin V → Fin D → ℝ)
    (selfBias temperature : ℝ) (entropyMean : Option ℝ) (i j : Fin V) : ℝ :=
  Real.exp (similarity V D emb selfBias i j / atm_temp temperature entropyMean) /
    ∑ k, Real.exp (similarity V D emb selfBias i k / atm_temp temperature entropyMean)

/-- Sparsified transition matrix of `AdaptiveTransitionMatrix.get_sparse_transitions`:
all entries outside the per-row index set `K i` are zeroed
(`sparse_transitions.scatter_(1, topk_idx, topk_vals)` over a zero tensor) and each
row is renormalized by its sum.  The index set chosen by `torch.topk` is abstracted
as an arbitrary `Finset` per row; the claims constrain only its cardinality. -/
noncomputable def sparse_transitions (V : ℕ) (P : Fin V → Fin V → ℝ)
    (K : Fin V → Finset (Fin V)) (i j : Fin V) : ℝ :=
  (if j ∈ K i then P i j else 0) / ∑ k, (if k ∈ K i then P i k else 0)

/-! ## Rate-matrix construction (adaptive_uniform_graph.py, enhanced variants) -/

/-- The diagonal-fixing step shared by every rate-matrix construction in the
repository: `rate_matrix.masked_fill(mask, 0) - off_diagonal_sum * mask.float()`,
where `off_diagonal_sum` is the row sum of the off-diagonal entries. -/
def setGeneratorDiag (V : ℕ) (M : Fin V → Fin V → ℝ) (i j : Fin V) : ℝ :=
  (if i = j then 0 else M i j) -
    (∑ k, if i = k then 0 else M i k) * (if i = j then 1 else 0)

/-- One batch-position slice of `AdaptiveUniform.adaptive_rate`
(adaptive_uniform_graph.py lines 73-113): the transition matrix (dense softmax, or
the sparse top-k variant when `sparsity_k` is set) is scaled by `rate_scale` and by
the entropy factor `1 + entropy_scale * entropy_scores`, then the diagonal is set to
minus the off-diagonal row sum.  `escoreMean` is the mean entropy score entering the
softmax temperature, `escorePos` the per-position entropy score of the slice. -/
noncomputable def adaptive_rate (V D : ℕ) (emb : Fin V → Fin D → ℝ)
    (selfBias temperature rate_scale entropy_scale escoreMean escorePos : ℝ)
    (sparsityK : Option (Fin V → Finset (Fin V))) (i j : Fin V) : ℝ :=
  setGeneratorDiag V
    (fun a b =>
      (match sparsityK with
        | none => atm_forward V D emb selfBias temperature (some escoreMean) a b
        | some K =>
            sparse_transitions V (atm_forward V D emb selfBias temperature none) K a b) *
        rate_scale * (1 + entropy_scale * escorePos))
    i j

/-- The pure-uniform rate matrix built in the enhanced graphs when the adaptive
weight is zero (and as the blending partner otherwise): a constant `1/dim` matrix
with the diagonal set to minus the off-diagonal row sum. -/
noncomputable def uniform_rate (V : ℕ) (i j : Fin V) : ℝ :=
  setGeneratorDiag V (fun _ _ => 1 / V) i j

/-! ## Enhanced adaptive weight schedule
(enhanced_adaptive_uniform_graph.py lines 69-114; the flag-based logic of
`EnhancedAdaptiveUniformV2.get_adaptive_weight`, lines 275-310 of
enhanced_adaptive_uniform_graph_v2.py, is line for line the same). -/

/-- Configuration flags of the enhanced graphs relevant to the weight schedule. -/
structure EnhancedConfig where
  use_asymptotic_guarantee : Bool
  use_two_stage : Bool
  stage_transition_point : ℝ
  use_controlled_decay : Bool
  decay_tau : ℝ

/-- Transcription of `EnhancedAdaptiveUniform.get_adaptive_weight(t, max_t)`.
The first branch is the early return
`if not self.use_asymptotic_guarantee and not self.use_controlled_decay: return 1.0`;
then `normalized_t = t / max_t`, followed by the two-stage, asymptotic and
controlled-decay branches. -/
noncomputable def get_adaptive_weight (c : EnhancedConfig) (t max_t : ℝ) : ℝ :=
  if !c.use_asymptotic_guarantee && !c.use_controlled_decay then 1
  else if c.use_two_stage then
    if t / max_t < c.stage_transition_point then
      if c.use_controlled_decay then
        Real.exp (-(t / max_t) / (c.decay_tau * c.stage_transition_point))
      else 1
    else 0
  else if c.use_asymptotic_guarantee then
    if c.use_controlled_decay then
      (1 - (t / max_t) ^ 2) * Real.exp (-(t / max_t) / c.decay_tau)
    else 1 - (t / max_t) ^ 2
  else if c.use_controlled_decay then Real.exp (-(t / max_t) / c.decay_tau)
  else 1

/-- Logistic sigmoid, as computed by `torch.sigmoid` and by the final
`nn.Sigmoid` layer of the learnable schedule network. -/
noncomputable def sigmoid (x : ℝ) : ℝ := 1 / (1 + Real.exp (-x))

/-- Transcription of `LearnableConvergenceSchedule.forward`
(enhanced_adaptive_uniform_graph_v2.py lines 102-132): the learned network
output at the normalized time (`net`, an arbitrary function whose final layer is
a Sigmoid) multiplied by a smoothed gate around the learned transition point
`tp`, with `transition_smoothness = 0.1`. -/
noncomputable def learnable_schedule_weight (net : ℝ → ℝ) (tp t max_t : ℝ) : ℝ :=
  net (t / max_t) * sigmoid ((tp - t / max_t) / 0.1)

/-- One batch-position slice of `EnhancedAdaptiveUniform.adaptive_rate`
(enhanced_adaptive_uniform_graph.py lines 116-151): pure uniform when the
adaptive weight is 0, the base adaptive rate blended with the uniform rate when
the weight is below 1, the base adaptive rate otherwise. -/
noncomputable def enhanced_adaptive_rate (c : EnhancedConfig) (V D : ℕ)
    (emb : Fin V → Fin D → ℝ)
    (selfBias temperature rate_scale entropy_scale escoreMean escorePos : ℝ)
    (sparsityK : Option (Fin V → Finset (Fin V))) (t max_t : ℝ) (i j : Fin V) : ℝ :=
  if get_adaptive_weight c t max_t = 0 then uniform_rate V i j
  else if get_adaptive_weight c t max_t < 1 then
    get_adaptive_weight c t max_t *
        adaptive_rate V D emb selfBias temperature rate_scale entropy_scale
          escoreMean escorePos sparsityK i j +
      (1 - get_adaptive_weight c t max_t) * uniform_rate V i j
  else
    adaptive_rate V D emb selfBias temperature rate_scale entropy_scale
      escoreMean escorePos sparsityK i j

/-! ## Forward sampling (AdaptiveUniform.sample_transition, lines 119-125) -/

/-- Abstract stand-in for the neural components an `AdaptiveUniform` graph
carries: the entropy estimator and transition-matrix parameters and the learned
rate scale and bias.  `sample_transition` receives the whole graph (it is a
method on `self`) but reads none of these fields. -/
structure AdaptiveUniformModel (V D : ℕ) where
  estimatorOut : (List (Fin V)) → ℝ
  transEmb : Fin V → Fin D → ℝ
  selfBias : ℝ
  temperature : ℝ
  rate_scale : ℝ
  rate_bias : ℝ

/-- The per-position replacement probability of `AdaptiveUniform.sample_transition`:
`move_chance = 1 - (-sigma).exp()`. -/
noncomputable def moveChance (sigma : ℝ) : ℝ := 1 - Real.exp (-sigma)

/-- Transcription of `AdaptiveUniform.sample_transition` with the randomness made
explicit: `u p` is the uniform draw `torch.rand` at position `p` and `r p` the
uniform token draw `torch.randint_like`.  A position moves exactly when its
uniform draw falls below `move_chance`; the graph `g` is passed (the method runs
on `self`) but only its vocabulary size is used. -/
noncomputable def sample_transition {V D : ℕ} {ι : Type} (g : AdaptiveUniformModel V D)
    (i : ι → Fin V) (sigma : ℝ) (u : ι → ℝ) (r : ι → Fin V) : ι → Fin V :=
  fun p => if u p < moveChance sigma then r p else i p

/-! ## Uniform transition matrix (AdaptiveUniform.transition, lines 186-196) -/

/-- First scatter stage of `AdaptiveUniform.transition`: the constant tensor
`torch.ones(...) * (1 - (-sigma).exp()) / self.dim`. -/
noncomputable def transition_step1 (V : ℕ) (sigma : ℝ) : Fin V → ℝ :=
  fun _ => (1 - Real.exp (-sigma)) / V

/-- Second stage: `trans.scatter(-1, i[..., None], torch.zeros_like(trans))`,
zeroing the entry of the current token. -/
noncomputable def transition_step2 (V : ℕ) (i : Fin V) (sigma : ℝ) : Fin V → ℝ :=
  Function.update (transition_step1 V sigma) i 0

/-- Third stage: `trans.scatter(-1, i[..., None], 1 - trans.sum(dim=-1, keepdim=True))`,
placing the leftover mass on the current token. -/
noncomputable def transition (V : ℕ) (i : Fin V) (sigma : ℝ) : Fin V → ℝ :=
  Function.update (transition_step2 V i sigma) i (1 - ∑ j, transition_step2 V i sigma j)

/-! ## Score entropy (AdaptiveUniform.score_entropy, lines 206-243) and the
information-content estimate (entropy_estimator.py lines 84-115) -/

/-- Transcription of `torch.clamp(x, lo, hi)`. -/
def torchClamp (x lo hi : ℝ) : ℝ := min (max x lo) hi

/-- Transcription of `torch.expm1(sigma)`; mathematically `exp sigma - 1`. -/
noncomputable def torchExpm1 (sigma : ℝ) : ℝ := Real.exp sigma - 1

/-- The `esigm1` normalizer of `score_entropy`:
`torch.where(sigma < 0.5, torch.expm1(sigma), torch.exp(sigma) - 1)`. -/
noncomputable def esigm1 (sigma : ℝ) : ℝ :=
  if sigma < 1 / 2 then torchExpm1 sigma else Real.exp sigma - 1

/-- The tensor `ratio = score.exp().clamp(0, 100)` of `score_entropy`, one vocabulary entry. -/
noncomputable def scoreRatio (V : ℕ) (score : Fin V → ℝ) (j : Fin V) : ℝ :=
  torchClamp (Real.exp (score j)) 0 100

/-- The sum `ratio_all = ratio.sum(dim=-1)` of `score_entropy`. -/
noncomputable def scoreRatioAll (V : ℕ) (score : Fin V → ℝ) : ℝ :=
  ∑ j, scoreRatio V score j

/-- The argument of the logarithm in
`loss = -torch.log(ratio.gather(-1, x_0[..., None]) / ratio_all)`. -/
noncomputable def scoreEntropyLogArg (V : ℕ) (score : Fin V → ℝ) (x0 : Fin V) : ℝ :=
  scoreRatio V score x0 / scoreRatioAll V score

/-- Token counts of one sequence, as built by
`token_counts.scatter_add_(1, x_t, torch.ones_like(x_t, ...))` in
`EntropyEstimator.estimate_information_content`. -/
def tokenCounts (V L : ℕ) (x : Fin L → Fin V) (j : Fin V) : ℕ :=
  (Finset.univ.filter (fun p => x p = j)).card

/-- The probabilities `token_probs = token_counts / seq_len`. -/
noncomputable def tokenProbs (V L : ℕ) (x : Fin L → Fin V) (j : Fin V) : ℝ :=
  (tokenCounts V L x j : ℝ) / L

/-- The argument of the logarithm in the frequency-entropy term
`torch.log(token_probs + 1e-10)` of `estimate_information_content`. -/
noncomputable def infoLogArg (V L : ℕ) (x : Fin L → Fin V) (j : Fin V) : ℝ :=
  tokenProbs V L x j + 1e-10

/-! ## Convergence declarations (diffusion_validator.py lines 84-101,
enhanced_metrics.py lines 309-319, enhanced_adaptive_uniform_graph.py
lines 293-303).  The final metric values are embedded as rationals. -/

/-- The quantity `max_entropy = np.log(vocab_size) / np.log(vocab_size)` of
`DiffusionValidator.test_forward_diffusion_convergence`. -/
def validator_max_entropy : ℚ := 1

/-- The `converged` entry of `convergence_criteria` in
`DiffusionValidator.test_forward_diffusion_convergence`:
`(final_entropy / max_entropy > 0.95) and (final_kl < 0.01) and (final_chi2 > 0.05)`. -/
def validator_converged (final_entropy final_kl final_chi2 : ℚ) : Bool :=
  (final_entropy / validator_max_entropy > 0.95) && (final_kl < 0.01) &&
    (final_chi2 > 0.05)

/-- The `overall_converged` entry of `final_status` in
`EnhancedMetrics.measure_convergence_quality`:
`final_entropy > 0.95 and final_kl < 0.01`. -/
def metrics_overall_converged (final_entropy final_kl : ℚ) : Bool :=
  (final_entropy > 0.95) && (final_kl < 0.01)

/-- The `chi2_converged` entry of the same `final_status` record:
`final_chi2_p > 0.05` (reported, but not part of `overall_converged`). -/
def metrics_chi2_converged (final_chi2_p : ℚ) : Bool :=
  final_chi2_p > 0.05

/-- The `converged` flag of `EnhancedAdaptiveUniform.validate_convergence`:
`final_kl < 0.01 and final_entropy > 0.95`. -/
def validate_convergence_result (final_kl final_entropy : ℚ) : Bool :=
  (final_kl < 0.01) && (final_entropy > 0.95)

/-! ## Chi-squared uniformity test (diffusion_validator.py lines 342-368) -/

/-- The count `expected_count = total_count / self.vocab_size`. -/
noncomputable def expectedCount (V total : ℕ) : ℝ := (total : ℝ) / V

/-- The chi-squared statistic accumulated by the per-token loop of
`DiffusionValidator._chi_squared_test`: each token contributes
`(observed[i] - expected_count) ** 2 / expected_count`, guarded by
`if expected_count > 0`. -/
noncomputable def chiSquaredStat (V total : ℕ) (observed : Fin V → ℕ) : ℝ :=
  ∑ i, if 0 < expectedCount V total then
    ((observed i : ℝ) - expectedCount V total) ^ 2 / expectedCount V total
  else 0

/-- Modelled from the spec: the external `scipy.stats.chi2` collaborator used
by `_chi_squared_test` is not part of the repository; its density with
`df = 3` degrees of freedom (the case `vocab_size = 4`) is modelled by the
mathematical definition
`x ^ (df/2 - 1) * exp (-x/2) / (2 ^ (df/2) * Gamma (df/2))`, which for
`df = 3` is `sqrt x * exp (-x/2) / sqrt (2 * pi)`. -/
noncomputable def chi2Density3 (x : ℝ) : ℝ :=
  Real.sqrt x * Real.exp (-(x / 2)) / Real.sqrt (2 * Real.pi)

/-- Cumulative distribution function `scipy.stats.chi2.cdf(x, 3)`, modelled as
the integral of the density from 0 to `x`. -/
noncomputable def chi2cdf3 (x : ℝ) : ℝ := ∫ t in Set.Ioc 0 x, chi2Density3 t

/-- The p-value returned by `DiffusionValidator._chi_squared_test` for
`vocab_size = 4` (degrees of freedom `df = vocab_size - 1 = 3`):
`p_value = 1 - stats.chi2.cdf(chi2_stat, df)`. -/
noncomputable def chiSquaredPValue4 (observed : Fin 4 → ℕ) : ℝ :=
  1 - chi2cdf3 (chiSquaredStat 4 (∑ i, observed i) observed)

/-! ## Helper lemmas -/

/-- The diagonal-fixing step always produces rows summing to zero. -/
theorem sum_setGeneratorDiag (V : ℕ) (M : Fin V → Fin V → ℝ) (i : Fin V) :
    ∑ j, setGeneratorDiag V M i j = 0 := by
  unfold setGeneratorDiag
  rw [Finset.sum_sub_distrib, ← Finset.mul_sum]
  have h1 : (∑ j, if i = j then (1 : ℝ) else 0) = 1 := by
    simp
  rw [h1, mul_one, sub_self]

/-- A row summing to zero has its diagonal entry equal to minus the sum of the
off-diagonal entries. -/
theorem diag_eq_neg_offdiag {V : ℕ} (R : Fin V → Fin V → ℝ) (i : Fin V)
    (h : ∑ j, R i j = 0) :
    R i i = -∑ j ∈ Finset.univ.erase i, R i j := by
  have h2 := Finset.add_sum_erase Finset.univ (fun j => R i j) (Finset.mem_univ i)
  rw [h] at h2
  linarith

/-- Rows of the uniform rate matrix sum to zero. -/
theorem sum_uniform_rate (V : ℕ) (i : Fin V) : ∑ j, uniform_rate V i j = 0 :=
  sum_setGeneratorDiag V _ i

/-- Positivity of every entry of the dense adaptive transition matrix
(a softmax output). -/
theorem atm_forward_pos (V D : ℕ) (emb : Fin V → Fin D → ℝ)
    (selfBias temperature : ℝ) (entropyMean : Option ℝ) (i j : Fin V) :
    0 < atm_forward V D emb selfBias temperature entropyMean i j := by
  unfold atm_forward
  exact div_pos (Real.exp_pos _)
    (Finset.sum_pos (fun k _ => Real.exp_pos _) ⟨i, Finset.mem_univ i⟩)

/-- Rows of the dense adaptive transition matrix sum to one. -/
theorem atm_forward_row_sum (V D : ℕ) (emb : Fin V → Fin D → ℝ)
    (selfBias temperature : ℝ) (entropyMean : Option ℝ) (i : Fin V) :
    ∑ j, atm_forward V D emb selfBias temperature entropyMean i j = 1 := by
  unfold atm_forward
  rw [← Finset.sum_div]
  exact div_self (ne_of_gt
    (Finset.sum_pos (fun k _ => Real.exp_pos _) ⟨i, Finset.mem_univ i⟩))

/-! ## Claim C1 -/

/-- C1: for every vocabulary size, every value of the learned parameters and
entropy scores (hence for every batch `x_t` and time `t`), each row of the rate
matrix of `AdaptiveUniform.adaptive_rate` sums to 0 and its diagonal entry
equals minus the sum of the off-diagonal entries of the row; the same holds for
`EnhancedAdaptiveUniform.adaptive_rate` in all of its branches (pure uniform,
blended, and full adaptive), for every configuration and time. -/
theorem c1_rate_rows_sum_zero (V D : ℕ) (emb : Fin V → Fin D → ℝ)
    (selfBias temperature rate_scale entropy_scale escoreMean escorePos : ℝ)
    (sparsityK : Option (Fin V → Finset (Fin V))) (c : EnhancedConfig)
    (t max_t : ℝ) (i : Fin V) :
    ((∑ j, adaptive_rate V D emb selfBias temperature rate_scale entropy_scale
        escoreMean escorePos sparsityK i j = 0) ∧
      adaptive_rate V D emb selfBias temperature rate_scale entropy_scale
          escoreMean escorePos sparsityK i i =
        -∑ j ∈ Finset.univ.erase i,
            adaptive_rate V D emb selfBias temperature rate_scale entropy_scale
              escoreMean escorePos sparsityK i j) ∧
    ((∑ j, enhanced_adaptive_rate c V D emb selfBias temperature rate_scale
        entropy_scale escoreMean escorePos sparsityK t max_t i j = 0) ∧
      enhanced_adaptive_rate c V D emb selfBias temperature rate_scale
          entropy_scale escoreMean escorePos sparsityK t max_t i i =
        -∑ j ∈ Finset.univ.erase i,
            enhanced_adaptive_rate c V D emb selfBias temperature rate_scale
              entropy_scale escoreMean escorePos sparsityK t max_t i j) := by
  have hbase : ∑ j, adaptive_rate V D emb selfBias temperature rate_scale
      entropy_scale escoreMean escorePos sparsityK i j = 0 :=
    sum_setGeneratorDiag V _ i
  have henh : ∑ j, enhanced_adaptive_rate c V D emb selfBias temperature
      rate_scale entropy_scale escoreMean escorePos sparsityK t max_t i j = 0 := by
    unfold enhanced_adaptive_rate
    split_ifs with h0 h1
    · exact sum_uniform_rate V i
    · rw [Finset.sum_add_distrib, ← Finset.mul_sum, ← Finset.mul_sum, hbase,
        sum_uniform_rate V i]
      ring
    · exact hbase
  exact ⟨⟨hbase, diag_eq_neg_offdiag _ i hbase⟩,
    ⟨henh, diag_eq_neg_offdiag _ i henh⟩⟩

/-! ## Claim C2 -/

/-- C2: for every parameter setting of `AdaptiveTransitionMatrix`, every
(optional) entropy-score input and every row, the dense transition matrix of
`forward` has row sum 1; and for every `k ≥ 1` and every per-row top-k index
set of cardinality `k`, the sparsified matrix of `get_sparse_transitions`
(zero outside the set, then renormalized) also has row sum 1. -/
theorem c2_transition_rows_sum_one (V D : ℕ) (emb : Fin V → Fin D → ℝ)
    (selfBias temperature : ℝ) (entropyMean : Option ℝ) (i : Fin V) (k : ℕ)
    (K : Fin V → Finset (Fin V)) :
    (∑ j, atm_forward V D emb selfBias temperature entropyMean i j = 1) ∧
    (1 ≤ k → (K i).card = k →
      ∑ j, sparse_transitions V (atm_forward V D emb selfBias temperature none) K i j
        = 1) := by
  refine ⟨atm_forward_row_sum V D emb selfBias temperature entropyMean i, ?_⟩
  intro hk hcard
  unfold sparse_transitions
  rw [← Finset.sum_div]
  refine div_self (ne_of_gt ?_)
  have hne : (K i).Nonempty := Finset.card_pos.mp (by omega)
  calc (0 : ℝ) < ∑ j ∈ K i, atm_forward V D emb selfBias temperature none i j :=
        Finset.sum_pos
          (fun j _ => atm_forward_pos V D emb selfBias temperature none i j) hne
    _ = ∑ j, if j ∈ K i then atm_forward V D emb selfBias temperature none i j
          else 0 := by
        rw [Finset.sum_ite_mem, Finset.univ_inter]

/-- Witness for C2 at a concrete input: vocabulary size 1, zero embeddings,
`k = 1` and the single-element top-k set. -/
theorem c2_transition_rows_sum_one_witness :
    1 ≤ 1 ∧ (({(0 : Fin 1)} : Finset (Fin 1)).card = 1) ∧
    ((∑ j, atm_forward 1 1 (fun _ _ => 0) 0 1 none (0 : Fin 1) j = 1) ∧
      ∑ j, sparse_transitions 1 (atm_forward 1 1 (fun _ _ => 0) 0 1 none)
          (fun _ => {(0 : Fin 1)}) (0 : Fin 1) j = 1) := by
  refine ⟨le_refl 1, by decide, ?_, ?_⟩
  · exact (c2_transition_rows_sum_one 1 1 (fun _ _ => 0) 0 1 none 0 1
      (fun _ => {(0 : Fin 1)})).1
  · exact (c2_transition_rows_sum_one 1 1 (fun _ _ => 0) 0 1 none 0 1
      (fun _ => {(0 : Fin 1)})).2 (le_refl 1) (by decide)

/-! ## Claims C3, C4, C5: the adaptive weight schedule -/

/-- An exponential decay factor with nonnegative time and positive time constant
lies in the unit interval. -/
theorem decay_mem_unit (x d : ℝ) (hx : 0 ≤ x) (hd : 0 < d) :
    0 ≤ Real.exp (-x / d) ∧ Real.exp (-x / d) ≤ 1 :=
  ⟨(Real.exp_pos _).le,
    Real.exp_le_one_iff.mpr (div_nonpos_iff.mpr (Or.inr ⟨neg_nonpos.mpr hx, hd.le⟩))⟩

/-- The logistic sigmoid lies in the open unit interval. -/
theorem sigmoid_mem_unit (x : ℝ) : 0 < sigmoid x ∧ sigmoid x ≤ 1 := by
  unfold sigmoid
  have h1 : (0 : ℝ) < 1 + Real.exp (-x) := by positivity
  constructor
  · positivity
  · rw [div_le_one h1]
    nlinarith [Real.exp_pos (-x)]

/-- C3 (amended): under the parameter conventions of the code
(`0 ≤ t ≤ max_t`, positive `max_t`, positive decay constant, positive transition
point), the adaptive weight of the enhanced graphs always lies in `[0, 1]`, and
it equals 0 at `t = max_t` when the asymptotic-guarantee policy is enabled
without two-stage mode, or when two-stage mode is enabled together with at
least one of the asymptotic or controlled-decay policies and its transition
point is at most 1.  (With only controlled decay the terminal weight is
`exp (-1/tau) ≠ 0`, and with only two-stage mode the early return yields 1;
see the counterexample.)  The learnable schedule of V2 also stays in `[0, 1]`
whenever its network output does, as its final Sigmoid layer guarantees. -/
theorem c3_weight_range_and_terminal (c : EnhancedConfig) (t max_t : ℝ)
    (net : ℝ → ℝ) (tp : ℝ)
    (ht0 : 0 ≤ t) (htT : t ≤ max_t) (hT : 0 < max_t)
    (htau : 0 < c.decay_tau) (hstp : 0 < c.stage_transition_point) :
    (0 ≤ get_adaptive_weight c t max_t ∧ get_adaptive_weight c t max_t ≤ 1) ∧
    ((c.use_two_stage = true ∧ c.stage_transition_point ≤ 1 ∧
        (c.use_asymptotic_guarantee = true ∨ c.use_controlled_decay = true)) ∨
      (c.use_two_stage = false ∧ c.use_asymptotic_guarantee = true) →
      get_adaptive_weight c max_t max_t = 0) ∧
    ((∀ x, 0 ≤ net x ∧ net x ≤ 1) →
      0 ≤ learnable_schedule_weight net tp t max_t ∧
        learnable_schedule_weight net tp t max_t ≤ 1) := by
  obtain ⟨A, TS, stp, D, tau⟩ := c
  simp only at htau hstp
  have hnt0 : 0 ≤ t / max_t := div_nonneg ht0 hT.le
  have hnt1 : t / max_t ≤ 1 := (div_le_one hT).mpr htT
  have hsq1 : (t / max_t) ^ 2 ≤ 1 := pow_le_one₀ hnt0 hnt1
  have hsq0 : 0 ≤ (t / max_t) ^ 2 := sq_nonneg _
  have hTT : max_t / max_t = 1 := div_self hT.ne'
  refine ⟨?_, ?_, ?_⟩
  · cases A <;> cases TS <;> cases D <;>
      simp only [get_adaptive_weight, Bool.not_true, Bool.not_false,
        Bool.and_self, Bool.and_true, Bool.and_false, Bool.true_and,
        Bool.false_and, Bool.false_eq_true, if_true, if_false] <;>
      (try split_ifs) <;>
      first
        | exact ⟨zero_le_one, le_refl 1⟩
        | exact ⟨le_refl 0, zero_le_one⟩
        | exact decay_mem_unit _ _ hnt0 (by positivity)
        | exact ⟨by nlinarith, by nlinarith⟩
        | exact ⟨mul_nonneg (by nlinarith) (Real.exp_pos _).le,
            mul_le_one₀ (by nlinarith) (Real.exp_pos _).le
              (decay_mem_unit (t / max_t) tau hnt0 htau).2⟩
  · intro h
    dsimp only at h
    rcases h with ⟨hTS, hstp1, hAD⟩ | ⟨hTS, hA⟩
    · subst hTS
      cases A <;> cases D <;>
        simp only [get_adaptive_weight, Bool.not_true, Bool.not_false,
          Bool.and_self, Bool.and_true, Bool.and_false, Bool.true_and,
          Bool.false_and, Bool.false_eq_true, if_true, if_false, hTT] <;>
        first
          | rw [if_neg (not_lt.mpr hstp1)]
          | (rcases hAD with h | h <;> exact Bool.noConfusion h)
    · subst hTS; subst hA
      cases D <;>
        simp only [get_adaptive_weight, Bool.not_true, Bool.not_false,
          Bool.and_self, Bool.and_true, Bool.and_false, Bool.true_and,
          Bool.false_and, Bool.false_eq_true, if_true, if_false, hTT] <;>
        norm_num
  · intro hnet
    unfold learnable_schedule_weight
    obtain ⟨hn0, hn1⟩ := hnet (t / max_t)
    obtain ⟨hs0, hs1⟩ := sigmoid_mem_unit ((tp - t / max_t) / 0.1)
    exact ⟨mul_nonneg hn0 hs0.le, mul_le_one₀ hn1 hs0.le hs1⟩

/-- C3 counterexample: with only the controlled-decay policy enabled
(`use_asymptotic_guarantee = False`, `use_two_stage = False`,
`use_controlled_decay = True`, `decay_tau = 1`), the weight at `t = max_t = 1`
is `exp (-1)`, not 0: the claim that the weight is 0 at `t = max_t` whenever at
least one convergence policy is enabled fails on this configuration. -/
theorem c3_terminal_weight_counterexample :
    get_adaptive_weight ⟨false, false, 4 / 5, true, 1⟩ 1 1 ≠ 0 := by
  simp only [get_adaptive_weight, Bool.not_true, Bool.not_false, Bool.true_and,
    Bool.and_false, Bool.false_eq_true, if_true, if_false]
  norm_num [Real.exp_ne_zero]

/-- Witness for C3 at a concrete configuration (all three policies enabled,
`stage_transition_point = 4/5`, `decay_tau = 1/10`) at `t = max_t = 1`, with the
constant-one-half schedule network. -/
theorem c3_weight_range_and_terminal_witness :
    (0 : ℝ) ≤ 1 ∧ (1 : ℝ) ≤ 1 ∧ (0 : ℝ) < 1 ∧ (0 : ℝ) < 1 / 10 ∧ (0 : ℝ) < 4 / 5 ∧
    ((0 ≤ get_adaptive_weight ⟨true, true, 4 / 5, true, 1 / 10⟩ 1 1 ∧
        get_adaptive_weight ⟨true, true, 4 / 5, true, 1 / 10⟩ 1 1 ≤ 1) ∧
      get_adaptive_weight ⟨true, true, 4 / 5, true, 1 / 10⟩ 1 1 = 0 ∧
      (0 ≤ learnable_schedule_weight (fun _ => 1 / 2) (4 / 5) 1 1 ∧
        learnable_schedule_weight (fun _ => 1 / 2) (4 / 5) 1 1 ≤ 1)) := by
  have h := c3_weight_range_and_terminal ⟨true, true, 4 / 5, true, 1 / 10⟩ 1 1
    (fun _ => 1 / 2) (4 / 5) (by norm_num) (by norm_num) (by norm_num)
    (by norm_num) (by norm_num)
  exact ⟨by norm_num, by norm_num, by norm_num, by norm_num, by norm_num,
    h.1, h.2.1 (Or.inl ⟨rfl, by norm_num, Or.inl rfl⟩),
    h.2.2 (fun x => by norm_num)⟩

/-! ## Claim C4 -/

/-- C4 (amended): the adaptive weight equals 1 at `t = 0` whenever controlled
decay is disabled and the stage transition point is positive; and for every
normalized time at or after the stage transition point with two-stage mode
enabled, the weight equals 0 provided at least one of the asymptotic-guarantee
or controlled-decay policies is also enabled (with both disabled the early
return `1.0` fires even in two-stage mode; see the counterexample). -/
theorem c4_weight_boundary (c : EnhancedConfig) (t max_t : ℝ) :
    (c.use_controlled_decay = false →
      (c.use_two_stage = true → 0 < c.stage_transition_point) →
      get_adaptive_weight c 0 max_t = 1) ∧
    (c.use_two_stage = true →
      (c.use_asymptotic_guarantee = true ∨ c.use_controlled_decay = true) →
      c.stage_transition_point ≤ t / max_t →
      get_adaptive_weight c t max_t = 0) := by
  obtain ⟨A, TS, stp, D, tau⟩ := c
  constructor
  · intro hD hstp
    dsimp only at hD hstp
    subst hD
    cases A <;> cases TS <;>
      simp only [get_adaptive_weight, Bool.not_true, Bool.not_false,
        Bool.and_self, Bool.and_true, Bool.and_false, Bool.true_and,
        Bool.false_and, Bool.false_eq_true, if_true, if_false, zero_div] <;>
      first
        | rfl
        | (norm_num <;> exact hstp rfl)
  · intro hTS hAD hle
    dsimp only at hTS hAD hle
    subst hTS
    cases A <;> cases D <;>
      simp only [get_adaptive_weight, Bool.not_true, Bool.not_false,
        Bool.and_self, Bool.and_true, Bool.and_false, Bool.true_and,
        Bool.false_and, Bool.false_eq_true, if_true, if_false] <;>
      first
        | rw [if_neg (not_lt.mpr hle)]
        | (rcases hAD with h | h <;> exact Bool.noConfusion h)

/-- C4 counterexample: with two-stage mode enabled but both the asymptotic
guarantee and controlled decay disabled, the early return yields weight 1 at
normalized time `0.9`, after the transition point `0.8`, where the claim
demands 0. -/
theorem c4_weight_boundary_counterexample :
    get_adaptive_weight ⟨false, true, 4 / 5, false, 1 / 10⟩ (9 / 10) 1 ≠ 0 := by
  simp only [get_adaptive_weight, Bool.not_false, Bool.and_self, if_true]
  norm_num

/-- Witness for C4: asymptotic guarantee and two-stage enabled, controlled
decay disabled, transition point `4/5`; the weight is 1 at `t = 0` and 0 at
normalized time `9/10`. -/
theorem c4_weight_boundary_witness :
    ((false : Bool) = false) ∧ ((0 : ℝ) < 4 / 5) ∧ ((4 : ℝ) / 5 ≤ 9 / 10 / 1) ∧
    get_adaptive_weight ⟨true, true, 4 / 5, false, 1 / 10⟩ 0 1 = 1 ∧
    get_adaptive_weight ⟨true, true, 4 / 5, false, 1 / 10⟩ (9 / 10) 1 = 0 :=
  ⟨rfl, by norm_num, by norm_num,
    (c4_weight_boundary ⟨true, true, 4 / 5, false, 1 / 10⟩ (9 / 10) 1).1 rfl
      (fun _ => by norm_num),
    (c4_weight_boundary ⟨true, true, 4 / 5, false, 1 / 10⟩ (9 / 10) 1).2 rfl
      (Or.inl rfl) (by norm_num)⟩

/-! ## Claim C5 -/

/-- C5 (amended): when two-stage mode is disabled, the adaptive weight is
exactly the product of the factors of the enabled policies — `1 - t²` for the
asymptotic guarantee and `exp (-t / tau)` for controlled decay (1 for a
disabled policy).  When two-stage mode is enabled it overrides the asymptotic
factor: before the transition point the weight is the controlled-decay factor
`exp (-t / (tau * stp))` (or 1), after it the weight is 0 — except that with
both other policies disabled the early return yields 1 everywhere. -/
theorem c5_weight_composability (c : EnhancedConfig) (t max_t : ℝ) :
    (c.use_two_stage = false →
      get_adaptive_weight c t max_t =
        (if c.use_asymptotic_guarantee then 1 - (t / max_t) ^ 2 else 1) *
          (if c.use_controlled_decay then
            Real.exp (-(t / max_t) / c.decay_tau) else 1)) ∧
    (c.use_two_stage = true →
      get_adaptive_weight c t max_t =
        if t / max_t < c.stage_transition_point then
          (if c.use_controlled_decay then
            Real.exp (-(t / max_t) / (c.decay_tau * c.stage_transition_point))
          else 1)
        else if c.use_asymptotic_guarantee ∨ c.use_controlled_decay then 0
          else 1) := by
  obtain ⟨A, TS, stp, D, tau⟩ := c
  constructor
  · intro hTS
    dsimp only at hTS
    subst hTS
    cases A <;> cases D <;>
      simp only [get_adaptive_weight, Bool.not_true, Bool.not_false,
        Bool.and_self, Bool.and_true, Bool.and_false, Bool.true_and,
        Bool.false_and, Bool.false_eq_true, if_true, if_false] <;>
      ring
  · intro hTS
    dsimp only at hTS
    subst hTS
    cases A <;> cases D <;>
      simp only [get_adaptive_weight, Bool.not_true, Bool.not_false,
        Bool.and_self, Bool.and_true, Bool.and_false, Bool.true_and,
        Bool.false_and, Bool.false_eq_true, if_true, if_false, or_self,
        true_or, or_true] <;>
      split_ifs <;> rfl

/-- C5 counterexample: with two-stage and asymptotic guarantee both enabled
(controlled decay off, transition point `4/5`), at normalized time `1/2` the
code returns 1, while the product of the enabled factors would carry the
asymptotic factor `1 - (1/2)² = 3/4`: in two-stage mode the asymptotic factor
is never applied. -/
theorem c5_weight_composability_counterexample :
    get_adaptive_weight ⟨true, true, 4 / 5, false, 1 / 10⟩ (1 / 2) 1 ≠
      (1 - ((1 : ℝ) / 2 / 1) ^ 2) * 1 := by
  simp only [get_adaptive_weight, Bool.not_true, Bool.not_false,
    Bool.false_and, Bool.false_eq_true, if_true, if_false]
  rw [if_pos (by norm_num : (1 : ℝ) / 2 / 1 < 4 / 5)]
  norm_num

/-- Witness for C5: the product law evaluated with two-stage off (asymptotic
and decay on), and the two-stage law evaluated with two-stage on. -/
theorem c5_weight_composability_witness :
    ((false : Bool) = false) ∧ ((true : Bool) = true) ∧
    (get_adaptive_weight ⟨true, false, 4 / 5, true, 1⟩ (1 / 2) 1 =
      (1 - ((1 : ℝ) / 2) ^ 2) * Real.exp (-((1 : ℝ) / 2) / 1)) ∧
    (get_adaptive_weight ⟨true, true, 4 / 5, true, 1⟩ (1 / 2) 1 =
      Real.exp (-((1 : ℝ) / 2) / (1 * (4 / 5)))) := by
  refine ⟨rfl, rfl, ?_, ?_⟩
  · have h := (c5_weight_composability ⟨true, false, 4 / 5, true, 1⟩ (1 / 2) 1).1 rfl
    rw [h]
    norm_num
  · have h := (c5_weight_composability ⟨true, true, 4 / 5, true, 1⟩ (1 / 2) 1).2 rfl
    rw [h]
    norm_num

/-! ## Claim C6 -/

/-- C6: `AdaptiveUniform.sample_transition` is independent of the adaptive
machinery — two graphs with arbitrary (even differently sized) neural
components produce identical samples given the same randomness; each position
is replaced by its uniformly drawn token exactly when its uniform draw falls
below `1 - exp (-sigma)` and kept otherwise; and for `sigma ≥ 0` the
probability that a uniform draw falls below the threshold is exactly
`1 - exp (-sigma)`. -/
theorem c6_sample_transition_independent {V D1 D2 : ℕ} {ι : Type}
    (g₁ : AdaptiveUniformModel V D1) (g₂ : AdaptiveUniformModel V D2)
    (i : ι → Fin V) (sigma : ℝ) (u : ι → ℝ) (r : ι → Fin V) :
    sample_transition g₁ i sigma u r = sample_transition g₂ i sigma u r ∧
    (∀ p, sample_transition g₁ i sigma u r p =
      if u p < 1 - Real.exp (-sigma) then r p else i p) ∧
    (0 ≤ sigma →
      MeasureTheory.volume {x ∈ Set.Ico (0 : ℝ) 1 | x < moveChance sigma} =
        ENNReal.ofReal (moveChance sigma)) := by
  refine ⟨rfl, fun p => rfl, fun hsig => ?_⟩
  have hE1 : Real.exp (-sigma) ≤ 1 := Real.exp_le_one_iff.mpr (by linarith)
  have hc1 : moveChance sigma ≤ 1 := by
    unfold moveChance
    nlinarith [Real.exp_pos (-sigma)]
  have hset : {x ∈ Set.Ico (0 : ℝ) 1 | x < moveChance sigma} =
      Set.Ico (0 : ℝ) (moveChance sigma) := by
    ext x
    simp only [Set.mem_sep_iff, Set.mem_Ico]
    constructor
    · rintro ⟨⟨hx0, _⟩, hxc⟩
      exact ⟨hx0, hxc⟩
    · rintro ⟨hx0, hxc⟩
      exact ⟨⟨hx0, lt_of_lt_of_le hxc hc1⟩, hxc⟩
  rw [hset, Real.volume_Ico, sub_zero]

/-- Witness for C6 at `sigma = 0` with two concrete single-token graphs over a
one-position index type. -/
theorem c6_sample_transition_independent_witness :
    (0 : ℝ) ≤ 0 ∧
    MeasureTheory.volume {x ∈ Set.Ico (0 : ℝ) 1 | x < moveChance 0} =
      ENNReal.ofReal (moveChance 0) := by
  have h := c6_sample_transition_independent (ι := Unit)
    (⟨fun _ => 0, fun _ _ => 0, 0, 1, 1, 0⟩ : AdaptiveUniformModel 1 1)
    (⟨fun _ => 0, fun _ _ => 1, 1, 2, 2, 1⟩ : AdaptiveUniformModel 1 1)
    (fun _ => 0) 0 (fun _ => 0) (fun _ => 0)
  exact ⟨le_refl 0, h.2.2 (le_refl 0)⟩

/-! ## Claim C7 -/

/-- C7: the convergence declarations test exactly the documented thresholds:
the validator declares convergence iff the entropy ratio exceeds 0.95, the KL
divergence is below 0.01 and the chi-squared p-value exceeds 0.05; the
enhanced-metrics `overall_converged` flag and the enhanced graph
`validate_convergence` use only the entropy and KL clauses (the chi-squared
clause is computed but kept separate). -/
theorem c7_convergence_thresholds (e kl p : ℚ) :
    (validator_converged e kl p = true ↔ 0.95 < e ∧ kl < 0.01 ∧ 0.05 < p) ∧
    (metrics_overall_converged e kl = true ↔ 0.95 < e ∧ kl < 0.01) ∧
    (metrics_chi2_converged p = true ↔ 0.05 < p) ∧
    (validate_convergence_result kl e = true ↔ kl < 0.01 ∧ 0.95 < e) := by
  unfold validator_converged metrics_overall_converged metrics_chi2_converged
    validate_convergence_result validator_max_entropy
  simp only [Bool.and_eq_true, decide_eq_true_eq, div_one, gt_iff_lt, and_assoc]
  tauto

/-! ## Claim C9 -/

/-- C9: the score-entropy loss never takes the logarithm of a nonpositive
quantity: the argument `ratio.gather(x_0) / ratio_all` is strictly positive for
every score tensor (the clamp of the exponential keeps every ratio entry
strictly positive), the argument `token_probs + 1e-10` of the logarithm inside
`estimate_information_content` is strictly positive for every sequence, and
the `esigm1` normalizer is strictly positive for every positive sigma, so the
loss is well-defined. -/
theorem c9_score_entropy_log_safety (V L : ℕ) (score : Fin V → ℝ) (x0 : Fin V)
    (x : Fin L → Fin V) (j : Fin V) (sigma : ℝ) :
    0 < scoreEntropyLogArg V score x0 ∧
    0 < infoLogArg V L x j ∧
    (0 < sigma → 0 < esigm1 sigma) := by
  have hratio : ∀ k : Fin V, 0 < scoreRatio V score k := by
    intro k
    unfold scoreRatio torchClamp
    have h1 : 0 < max (Real.exp (score k)) 0 := lt_max_of_lt_left (Real.exp_pos _)
    exact lt_min h1 (by norm_num)
  refine ⟨?_, ?_, ?_⟩
  · unfold scoreEntropyLogArg scoreRatioAll
    exact div_pos (hratio x0)
      (Finset.sum_pos (fun k _ => hratio k) ⟨x0, Finset.mem_univ x0⟩)
  · unfold infoLogArg
    have h0 : (0 : ℝ) ≤ tokenProbs V L x j :=
      div_nonneg (Nat.cast_nonneg _) (Nat.cast_nonneg _)
    have heps : (0 : ℝ) < 1e-10 := by norm_num
    linarith
  · intro hs
    unfold esigm1 torchExpm1
    have h1 : 1 < Real.exp sigma := Real.one_lt_exp_iff.mpr hs
    split_ifs <;> linarith

/-- Witness for C9 at the zero score vector over a one-token vocabulary,
a length-one sequence and `sigma = 1`. -/
theorem c9_score_entropy_log_safety_witness :
    (0 : ℝ) < 1 ∧
    (0 < scoreEntropyLogArg 1 (fun _ => 0) 0 ∧
      0 < infoLogArg 1 1 (fun _ => 0) 0 ∧
      0 < esigm1 1) := by
  have h := c9_score_entropy_log_safety 1 1 (fun _ => 0) 0 (fun _ => 0) 0 1
  exact ⟨by norm_num, h.1, h.2.1, h.2.2 (by norm_num)⟩

/-! ## Claim C10 -/

/-- C10: for every token `i` and `sigma ≥ 0`, the row built by
`AdaptiveUniform.transition` sums to 1, gives probability
`(1 - exp (-sigma)) / vocab_size` to every other token and the leftover
`1 - (vocab_size - 1) * (1 - exp (-sigma)) / vocab_size` to the current token,
is entrywise nonnegative, and reduces to the identity row at `sigma = 0`. -/
theorem c10_transition_row_stochastic (V : ℕ) (i : Fin V) (sigma : ℝ)
    (hsig : 0 ≤ sigma) :
    (∑ j, transition V i sigma j = 1) ∧
    (∀ j, j ≠ i → transition V i sigma j = (1 - Real.exp (-sigma)) / V) ∧
    (transition V i sigma i = 1 - ((V : ℝ) - 1) * ((1 - Real.exp (-sigma)) / V)) ∧
    (∀ j, 0 ≤ transition V i sigma j) ∧
    (sigma = 0 → ∀ j, transition V i sigma j = if j = i then 1 else 0) := by
  have hV : 0 < V := i.pos
  have hE0 : 0 < Real.exp (-sigma) := Real.exp_pos _
  have hE1 : Real.exp (-sigma) ≤ 1 := Real.exp_le_one_iff.mpr (by linarith)
  have hstep2i : transition_step2 V i sigma i = 0 := Function.update_same i 0 _
  have hstep2ne : ∀ j, j ≠ i →
      transition_step2 V i sigma j = (1 - Real.exp (-sigma)) / V := by
    intro j hj
    unfold transition_step2 transition_step1
    rw [Function.update_noteq hj]
  have herase : ∑ j ∈ Finset.univ.erase i, transition_step2 V i sigma j =
      ((V : ℝ) - 1) * ((1 - Real.exp (-sigma)) / V) := by
    rw [Finset.sum_congr rfl
      (fun j hj => hstep2ne j (Finset.ne_of_mem_erase hj))]
    rw [Finset.sum_const, Finset.card_erase_of_mem (Finset.mem_univ i),
      Finset.card_univ, Fintype.card_fin, nsmul_eq_mul]
    congr 1
    rw [Nat.cast_sub (by omega), Nat.cast_one]
  have hsum2 : ∑ j, transition_step2 V i sigma j =
      ((V : ℝ) - 1) * ((1 - Real.exp (-sigma)) / V) := by
    rw [← Finset.add_sum_erase Finset.univ _ (Finset.mem_univ i), hstep2i,
      herase, zero_add]
  have hdiag : transition V i sigma i =
      1 - ((V : ℝ) - 1) * ((1 - Real.exp (-sigma)) / V) := by
    unfold transition
    rw [Function.update_same, hsum2]
  have hoff : ∀ j, j ≠ i →
      transition V i sigma j = (1 - Real.exp (-sigma)) / V := by
    intro j hj
    unfold transition
    rw [Function.update_noteq hj]
    exact hstep2ne j hj
  have hsum : ∑ j, transition V i sigma j = 1 := by
    unfold transition
    rw [Finset.sum_update_of_mem (Finset.mem_univ i),
      Finset.sdiff_singleton_eq_erase, herase, hsum2]
    ring
  have hV1 : (1 : ℝ) ≤ (V : ℝ) := by exact_mod_cast hV
  have hc0 : 0 ≤ (1 - Real.exp (-sigma)) / V :=
    div_nonneg (by linarith) (Nat.cast_nonneg V)
  refine ⟨hsum, hoff, hdiag, ?_, ?_⟩
  · intro j
    by_cases hj : j = i
    · subst hj
      rw [hdiag]
      have hVpos : (0 : ℝ) < V := by exact_mod_cast hV
      have key : ((V : ℝ) - 1) * ((1 - Real.exp (-sigma)) / V) ≤ 1 := by
        rw [mul_div_assoc', div_le_one hVpos]
        nlinarith
      linarith
    · rw [hoff j hj]
      exact hc0
  · intro hzero j
    subst hzero
    by_cases hj : j = i
    · subst hj
      rw [hdiag]
      simp [Real.exp_zero]
    · rw [hoff j hj, if_neg hj]
      simp [Real.exp_zero]

/-- Witness for C10 over a two-token vocabulary at `sigma = 0`. -/
theorem c10_transition_row_stochastic_witness :
    (0 : ℝ) ≤ 0 ∧
    ((∑ j, transition 2 0 0 j = 1) ∧
      transition 2 0 0 ⟨1, by norm_num⟩ = (1 - Real.exp (-0)) / 2 ∧
      ∀ j, transition 2 (0 : Fin 2) 0 j = if j = 0 then 1 else 0) := by
  have h := c10_transition_row_stochastic 2 0 0 (le_refl 0)
  exact ⟨le_refl 0, h.1, h.2.1 ⟨1, by norm_num⟩ (by decide), h.2.2.2.2 rfl⟩

/-! ## Claim C8: chi-squared test values -/

/-- Integrability of the unnormalized chi-squared (df = 3) integrand with an
arbitrary positive rate. -/
theorem sqrt_mul_exp_integrableOn (r : ℝ) (hr : 0 < r) :
    MeasureTheory.IntegrableOn
      (fun t : ℝ => Real.sqrt t * Real.exp (-(r * t))) (Set.Ioi 0) := by
  have h := integrableOn_rpow_mul_exp_neg_mul_rpow
    (p := 1) (s := 1 / 2) (b := r) (by norm_num) (le_refl 1) hr
  refine h.congr_fun (fun x hx => ?_) measurableSet_Ioi
  rw [Real.rpow_one, ← Real.sqrt_eq_rpow, neg_mul]

/-- Gamma at `3/2`. -/
theorem Gamma_three_halves : Real.Gamma (3 / 2) = Real.sqrt Real.pi / 2 := by
  rw [show (3 : ℝ) / 2 = 1 / 2 + 1 by norm_num,
    Real.Gamma_add_one (by norm_num), Real.Gamma_one_half_eq]
  ring

/-- The Gamma-function value of the unnormalized integrand. -/
theorem sqrt_mul_exp_integral (r : ℝ) (hr : 0 < r) :
    ∫ t in Set.Ioi 0, Real.sqrt t * Real.exp (-(r * t)) =
      (1 / r) ^ ((3 : ℝ) / 2) * (Real.sqrt Real.pi / 2) := by
  have h := Real.integral_rpow_mul_exp_neg_mul_Ioi
    (a := 3 / 2) (r := r) (by norm_num) hr
  rw [← Gamma_three_halves, ← h]
  refine MeasureTheory.setIntegral_congr_fun measurableSet_Ioi (fun x hx => ?_)
  rw [show (3 : ℝ) / 2 - 1 = 1 / 2 by norm_num, ← Real.sqrt_eq_rpow]

/-- The integrand at rate `1/2`, in the `t/2` form used by the density. -/
theorem half_integrableOn :
    MeasureTheory.IntegrableOn
      (fun t : ℝ => Real.sqrt t * Real.exp (-(t / 2))) (Set.Ioi 0) := by
  have h := sqrt_mul_exp_integrableOn (1 / 2) (by norm_num)
  refine h.congr_fun (fun x hx => ?_) measurableSet_Ioi
  have harg : (1 : ℝ) / 2 * x = x / 2 := by ring
  rw [harg]

/-- Normalization: the chi-squared (df = 3) integrand integrates to
`sqrt (2 * pi)` over the positive reals. -/
theorem chi2_total_integral :
    ∫ t in Set.Ioi 0, Real.sqrt t * Real.exp (-(t / 2)) =
      Real.sqrt (2 * Real.pi) := by
  have h := sqrt_mul_exp_integral (1 / 2) (by norm_num)
  have heq : (∫ t in Set.Ioi 0, Real.sqrt t * Real.exp (-(t / 2))) =
      ∫ t in Set.Ioi 0, Real.sqrt t * Real.exp (-((1 : ℝ) / 2 * t)) := by
    refine MeasureTheory.setIntegral_congr_fun measurableSet_Ioi (fun x hx => ?_)
    have harg : (1 : ℝ) / 2 * x = x / 2 := by ring
    rw [harg]
  rw [heq, h, show (1 : ℝ) / ((1 : ℝ) / 2) = 2 by norm_num,
    show ((3 : ℝ) / 2) = 1 + 1 / 2 by norm_num,
    Real.rpow_add (by norm_num : (0 : ℝ) < 2), Real.rpow_one,
    ← Real.sqrt_eq_rpow, Real.sqrt_mul (by norm_num : (0 : ℝ) ≤ 2)]
  ring

/-- The integrand at rate `1/4` integrates to `4 * sqrt pi`. -/
theorem chi2_quarter_integral :
    ∫ t in Set.Ioi 0, Real.sqrt t * Real.exp (-((1 : ℝ) / 4 * t)) =
      4 * Real.sqrt Real.pi := by
  have h := sqrt_mul_exp_integral (1 / 4) (by norm_num)
  have h4 : ((4 : ℝ)) ^ ((3 : ℝ) / 2) = 8 := by
    rw [show (4 : ℝ) = 2 ^ (2 : ℕ) by norm_num, ← Real.rpow_natCast 2 2,
      ← Real.rpow_mul (by norm_num : (0 : ℝ) ≤ 2),
      show ((2 : ℕ) : ℝ) * ((3 : ℝ) / 2) = ((3 : ℕ) : ℝ) by norm_num,
      Real.rpow_natCast]
    norm_num
  rw [h, show (1 : ℝ) / ((1 : ℝ) / 4) = 4 by norm_num, h4]
  ring

/-- Splitting the positive half-line integral at 120. -/
theorem chi2_split :
    (∫ t in Set.Ioi (0 : ℝ), Real.sqrt t * Real.exp (-(t / 2))) =
      (∫ t in Set.Ioc (0 : ℝ) 120, Real.sqrt t * Real.exp (-(t / 2))) +
        ∫ t in Set.Ioi (120 : ℝ), Real.sqrt t * Real.exp (-(t / 2)) := by
  rw [← Set.Ioc_union_Ioi_eq_Ioi (by norm_num : (0 : ℝ) ≤ 120)]
  exact MeasureTheory.setIntegral_union (Set.Ioc_disjoint_Ioi le_rfl)
    measurableSet_Ioi (half_integrableOn.mono_set Set.Ioc_subset_Ioi_self)
    (half_integrableOn.mono_set (Set.Ioi_subset_Ioi (by norm_num)))

/-- Tail bound: beyond 120 the integrand is dominated by
`exp (-30)` times the rate `1/4` integrand. -/
theorem chi2_tail_le :
    (∫ t in Set.Ioi (120 : ℝ), Real.sqrt t * Real.exp (-(t / 2))) ≤
      Real.exp (-30) * (4 * Real.sqrt Real.pi) := by
  have hint4 : MeasureTheory.IntegrableOn
      (fun t : ℝ => Real.sqrt t * Real.exp (-((1 : ℝ) / 4 * t))) (Set.Ioi 0) :=
    sqrt_mul_exp_integrableOn (1 / 4) (by norm_num)
  have hint1 : MeasureTheory.IntegrableOn
      (fun t : ℝ => Real.sqrt t * Real.exp (-(t / 2))) (Set.Ioi 120) :=
    half_integrableOn.mono_set (Set.Ioi_subset_Ioi (by norm_num))
  have hint4c : MeasureTheory.IntegrableOn
      (fun t : ℝ => Real.exp (-30) *
        (Real.sqrt t * Real.exp (-((1 : ℝ) / 4 * t)))) (Set.Ioi 120) := by
    have h : MeasureTheory.IntegrableOn
        (fun t : ℝ => Real.exp (-30) *
          (Real.sqrt t * Real.exp (-((1 : ℝ) / 4 * t)))) (Set.Ioi 0) :=
      hint4.const_mul _
    exact h.mono_set (Set.Ioi_subset_Ioi (by norm_num))
  have hpt : ∀ x ∈ Set.Ioi (120 : ℝ),
      Real.sqrt x * Real.exp (-(x / 2)) ≤
        Real.exp (-30) * (Real.sqrt x * Real.exp (-((1 : ℝ) / 4 * x))) := by
    intro x hx
    have hx120 : (120 : ℝ) < x := hx
    have hsplit2 : -(x / 2) = -((1 : ℝ) / 4 * x) + -((1 : ℝ) / 4 * x) := by ring
    have hE30 : Real.exp (-((1 : ℝ) / 4 * x)) ≤ Real.exp (-30) :=
      Real.exp_le_exp.mpr (by linarith)
    calc Real.sqrt x * Real.exp (-(x / 2))
        = (Real.sqrt x * Real.exp (-((1 : ℝ) / 4 * x))) *
            Real.exp (-((1 : ℝ) / 4 * x)) := by
          rw [hsplit2, Real.exp_add]; ring
      _ ≤ (Real.sqrt x * Real.exp (-((1 : ℝ) / 4 * x))) * Real.exp (-30) :=
          mul_le_mul_of_nonneg_left hE30 (by positivity)
      _ = Real.exp (-30) * (Real.sqrt x * Real.exp (-((1 : ℝ) / 4 * x))) := by
          ring
  calc (∫ t in Set.Ioi (120 : ℝ), Real.sqrt t * Real.exp (-(t / 2)))
      ≤ ∫ t in Set.Ioi (120 : ℝ), Real.exp (-30) *
          (Real.sqrt t * Real.exp (-((1 : ℝ) / 4 * t))) :=
        MeasureTheory.setIntegral_mono_on hint1 hint4c measurableSet_Ioi hpt
    _ = Real.exp (-30) *
          ∫ t in Set.Ioi (120 : ℝ), Real.sqrt t * Real.exp (-((1 : ℝ) / 4 * t)) :=
        MeasureTheory.integral_mul_left _ _
    _ ≤ Real.exp (-30) *
          ∫ t in Set.Ioi (0 : ℝ), Real.sqrt t * Real.exp (-((1 : ℝ) / 4 * t)) := by
        refine mul_le_mul_of_nonneg_left ?_ (Real.exp_pos _).le
        refine MeasureTheory.setIntegral_mono_set hint4 ?_ ?_
        · exact Filter.Eventually.of_forall (fun x => by positivity)
        · exact (Set.Ioi_subset_Ioi (by norm_num)).eventuallyLE
    _ = Real.exp (-30) * (4 * Real.sqrt Real.pi) := by
        rw [chi2_quarter_integral]

/-- The modelled chi-squared CDF at the statistic 120 in terms of the tail
integral. -/
theorem chi2cdf3_at_120 :
    chi2cdf3 120 = 1 -
      (∫ t in Set.Ioi (120 : ℝ), Real.sqrt t * Real.exp (-(t / 2))) /
        Real.sqrt (2 * Real.pi) := by
  unfold chi2cdf3 chi2Density3
  rw [MeasureTheory.integral_div]
  have hIoc : (∫ t in Set.Ioc (0 : ℝ) 120, Real.sqrt t * Real.exp (-(t / 2))) =
      Real.sqrt (2 * Real.pi) -
        ∫ t in Set.Ioi (120 : ℝ), Real.sqrt t * Real.exp (-(t / 2)) := by
    have h1 := chi2_split
    rw [chi2_total_integral] at h1
    linarith
  rw [hIoc]
  have h2pi : Real.sqrt (2 * Real.pi) ≠ 0 := by positivity
  field_simp

/-- C8: for `vocab_size = 4` the chi-squared statistic of the uniform count
vector `[10, 10, 10, 10]` is 0 and its p-value is above 0.05 (it equals 1,
failing to reject uniformity), while the statistic of the concentrated counts
`[40, 0, 0, 0]` is 120 (3 degrees of freedom) and its p-value is numerically
near zero: nonnegative and below `10⁻⁶`. -/
theorem c8_chi_squared_values :
    chiSquaredStat 4 40 ![10, 10, 10, 10] = 0 ∧
    chiSquaredStat 4 40 ![40, 0, 0, 0] = 120 ∧
    0.05 < chiSquaredPValue4 ![10, 10, 10, 10] ∧
    0 ≤ chiSquaredPValue4 ![40, 0, 0, 0] ∧
    chiSquaredPValue4 ![40, 0, 0, 0] < 1 / 1000000 := by
  have hstat0 : chiSquaredStat 4 40 ![10, 10, 10, 10] = 0 := by
    norm_num [chiSquaredStat, expectedCount, Fin.sum_univ_four]
  have hstat120 : chiSquaredStat 4 40 ![40, 0, 0, 0] = 120 := by
    norm_num [chiSquaredStat, expectedCount, Fin.sum_univ_four]
  have h40a : (∑ i, (![10, 10, 10, 10] : Fin 4 → ℕ) i) = 40 := by
    norm_num [Fin.sum_univ_four]
  have h40b : (∑ i, (![40, 0, 0, 0] : Fin 4 → ℕ) i) = 40 := by
    norm_num [Fin.sum_univ_four]
  have hp1 : chiSquaredPValue4 ![10, 10, 10, 10] = 1 := by
    unfold chiSquaredPValue4
    rw [h40a, hstat0]
    unfold chi2cdf3
    rw [Set.Ioc_self, MeasureTheory.setIntegral_empty]
    norm_num
  have htail0 : 0 ≤ ∫ t in Set.Ioi (120 : ℝ),
      Real.sqrt t * Real.exp (-(t / 2)) :=
    MeasureTheory.setIntegral_nonneg measurableSet_Ioi (fun x _ => by positivity)
  have hpconc : chiSquaredPValue4 ![40, 0, 0, 0] =
      (∫ t in Set.Ioi (120 : ℝ), Real.sqrt t * Real.exp (-(t / 2))) /
        Real.sqrt (2 * Real.pi) := by
    unfold chiSquaredPValue4
    rw [h40b, hstat120, chi2cdf3_at_120]
    ring
  have hsqrt2pi : (2 : ℝ) ≤ Real.sqrt (2 * Real.pi) := by
    have h4le : (4 : ℝ) ≤ 2 * Real.pi := by nlinarith [Real.two_le_pi]
    have h2 : Real.sqrt 4 = 2 := by
      rw [show (4 : ℝ) = 2 ^ 2 by norm_num, Real.sqrt_sq (by norm_num : (0 : ℝ) ≤ 2)]
    calc (2 : ℝ) = Real.sqrt 4 := h2.symm
      _ ≤ Real.sqrt (2 * Real.pi) := Real.sqrt_le_sqrt h4le
  have hsqrtpi : Real.sqrt Real.pi ≤ 2 := by
    have h2 : Real.sqrt 4 = 2 := by
      rw [show (4 : ℝ) = 2 ^ 2 by norm_num, Real.sqrt_sq (by norm_num : (0 : ℝ) ≤ 2)]
    calc Real.sqrt Real.pi ≤ Real.sqrt 4 := Real.sqrt_le_sqrt Real.pi_le_four
      _ = 2 := h2
  have hE : Real.exp (-30 : ℝ) ≤ (1 / 2 : ℝ) ^ (30 : ℕ) := by
    have h1 : Real.exp (-30 : ℝ) = Real.exp (-1) ^ (30 : ℕ) := by
      rw [← Real.exp_nat_mul]
      norm_num
    have h2 : Real.exp (-1 : ℝ) ≤ 1 / 2 := by
      rw [Real.exp_neg]
      have he1 : (2 : ℝ) ≤ Real.exp 1 := by nlinarith [Real.exp_one_gt_d9]
      rw [show (1 : ℝ) / 2 = (2 : ℝ)⁻¹ by norm_num]
      exact inv_le_inv_of_le (by norm_num) he1
    rw [h1]
    exact pow_le_pow_left (Real.exp_pos _).le h2 30
  refine ⟨hstat0, hstat120, by rw [hp1]; norm_num, ?_, ?_⟩
  · rw [hpconc]
    positivity
  · rw [hpconc]
    rw [div_lt_iff (by positivity : (0 : ℝ) < Real.sqrt (2 * Real.pi))]
    have htail := chi2_tail_le
    have hbound : Real.exp (-30) * (4 * Real.sqrt Real.pi) ≤
        8 * (1 / 2 : ℝ) ^ (30 : ℕ) := by
      nlinarith [Real.sqrt_nonneg Real.pi, Real.exp_pos (-30 : ℝ)]
    have hnum : (8 : ℝ) * (1 / 2 : ℝ) ^ (30 : ℕ) < 1 / 1000000 * 2 := by
      norm_num
    have hfinal : (1 : ℝ) / 1000000 * 2 ≤
        1 / 1000000 * Real.sqrt (2 * Real.pi) := by
      nlinarith
    linarith

end AEGUD
